import Mathlib

/-!
Verification development for the TiebaContentReviewer core.

We shallowly embed the rule engine (`src/core/engine.py`), the rule
repository (`src/infra/repository.py`), the result dispatcher
(`src/infra/dispatcher.py`) and the stream worker (`src/worker/consumer.py`)
as executable Lean definitions, and prove the specified properties about
them.  Definition names follow the Python source names where Lean allows.
-/

/-! ## A model of the dynamically typed Python values the engine works on.

Content objects (`ThreadDTO` / `PostDTO` / `CommentDTO`), rule `value`
payloads and function-call results are dynamically typed in the source;
we model them with a single inductive of Python values.  Python `bool`
is a subclass of `int`, so numeric comparison treats `bool b` as `0`/`1`.
-/

inductive Val where
  | none
  | bool (b : Bool)
  | int (n : Int)
  | str (s : String)
  | list (xs : List Val)
  | obj (fields : List (String × Val))

def Val.isNone : Val → Bool
  | Val.none => true
  | _ => false

/-- First-match association-list lookup (models Python `dict.get` /
attribute lookup on objects with unique keys). -/
def lookupA {α β : Type} [DecidableEq α] : List (α × β) → α → Option β
  | [], _ => Option.none
  | kv :: rest, k => if kv.1 = k then some kv.2 else lookupA rest k

mutual

/-- Python `repr` of a value, modelled coarsely: exact for `None`, `bool`,
`int`, `str` and lists thereof; DTO objects (which have no claim-relevant
`repr`) are rendered as a fixed token. -/
def pyRepr : Val → String
  | Val.none => "None"
  | Val.bool true => "True"
  | Val.bool false => "False"
  | Val.int n => toString n
  | Val.str s => "\x27" ++ s ++ "\x27"
  | Val.list xs => "[" ++ pyReprList xs ++ "]"
  | Val.obj _ => "<object>"

def pyReprList : List Val → String
  | [] => ""
  | [x] => pyRepr x
  | x :: xs => pyRepr x ++ ", " ++ pyReprList xs

end

/-- Python `str` of a value (`str()` on a string is the string itself,
otherwise it agrees with `repr` for the value shapes we model). -/
def pyStr : Val → String
  | Val.str s => s
  | v => pyRepr v

mutual

/-- Python `==`: numeric across `bool`/`int`, structural on strings,
lists and (pydantic) objects, `False` across unrelated types. -/
def pyEq : Val → Val → Bool
  | Val.none, Val.none => true
  | Val.bool a, Val.bool b => a = b
  | Val.bool a, Val.int n => (if a then (1 : Int) else 0) = n
  | Val.int n, Val.bool a => n = (if a then (1 : Int) else 0)
  | Val.int a, Val.int b => a = b
  | Val.str a, Val.str b => a = b
  | Val.list a, Val.list b => pyEqList a b
  | Val.obj a, Val.obj b => pyEqFields a b
  | _, _ => false

def pyEqList : List Val → List Val → Bool
  | [], [] => true
  | a :: as, b :: bs => pyEq a b && pyEqList as bs
  | _, _ => false

def pyEqFields : List (String × Val) → List (String × Val) → Bool
  | [], [] => true
  | a :: as, b :: bs => (decide (a.1 = b.1)) && pyEq a.2 b.2 && pyEqFields as bs
  | _, _ => false

end

mutual

/-- Python ordering comparison: `some` ordering where `<`/`>` are defined
(numbers with each other, strings with strings, lists elementwise),
`Option.none` where Python raises `TypeError`. -/
def pyCmp : Val → Val → Option Ordering
  | Val.bool a, Val.bool b => some (compare (if a then (1 : Int) else 0) (if b then (1 : Int) else 0))
  | Val.bool a, Val.int n => some (compare (if a then (1 : Int) else 0) n)
  | Val.int n, Val.bool a => some (compare n (if a then (1 : Int) else 0))
  | Val.int a, Val.int b => some (compare a b)
  | Val.str a, Val.str b => some (compare a b)
  | Val.list a, Val.list b => pyCmpList a b
  | _, _ => Option.none

def pyCmpList : List Val → List Val → Option Ordering
  | [], [] => some Ordering.eq
  | [], _ :: _ => some Ordering.lt
  | _ :: _, [] => some Ordering.gt
  | a :: as, b :: bs =>
    match pyCmp a b with
    | some Ordering.eq => pyCmpList as bs
    | some o => some o
    | Option.none => Option.none

end

/-- Substring test on character lists: does the second list start with the
first one? -/
def charsStartWith : List Char → List Char → Bool
  | [], _ => true
  | _ :: _, [] => false
  | a :: as, b :: bs => a = b && charsStartWith as bs

/-- Does the second list contain the first as a contiguous run? -/
def charsContain (needle : List Char) : List Char → Bool
  | [] => needle.isEmpty
  | c :: rest => charsStartWith needle (c :: rest) || charsContain needle rest

/-- Python `needle in hay` on strings (substring containment). -/
def strContainsSub (hay needle : String) : Bool :=
  charsContain needle.data hay.data

/-- Python membership `x in container` — `some` answer where defined,
`Option.none` where Python raises `TypeError` (container not a
string/list/dict).  String membership requires a string operand; dict
membership tests the keys. -/
def pyMem (x : Val) : Val → Option Bool
  | Val.str s =>
    match x with
    | Val.str xs => some (strContainsSub s xs)
    | _ => Option.none
  | Val.list ys => some (ys.any (fun y => pyEq x y))
  | Val.obj fields => some (fields.any (fun kv => pyEq x (Val.str kv.1)))
  | _ => Option.none

/-! ## Rule data model (src/core/rules.py and the schema used by the engine). -/

/-- Logic connectives admitted by `RuleGroup.logic`
(`src/core/rules.py` lines 24-39). -/
inductive LogicType where
  | AND | OR | NOT | XOR | XNOR | NAND | NOR
deriving DecidableEq

/-- Operators handled by `RuleMatcher._evaluate_condition`. -/
inductive OperatorType where
  | CONTAINS | NOT_CONTAINS | REGEX | NOT_REGEX
  | EQ | NEQ | GT | LT | GTE | LTE | IN | NOT_IN
deriving DecidableEq

/-- A condition's `field` is either a dotted path string or a
`FunctionCall{name, args, kwargs}`. -/
inductive FieldSpec where
  | path (p : String)
  | func (name : String) (args : List Val) (kwargs : List (String × Val))

structure Condition where
  field : FieldSpec
  operator : OperatorType
  value : Val

inductive RuleNode where
  | cond (c : Condition)
  | group (logic : LogicType) (conditions : List RuleNode)

/-- Rule scope kinds (`TargetType` of the schema). -/
inductive TargetType where
  | thread | post | comment | all
deriving DecidableEq

structure RuleAction where
  type : String
  params : List (String × Val)

/-- The review-rule entity; fields as used by the engine
(`enabled`, `trigger`, `block`), the repository (`id`, `fid`,
`target_type`, `priority`, `enabled`) and the dispatcher
(`id`, `name`, `priority`, `actions`). -/
structure ReviewRule where
  id : Nat
  name : String
  enabled : Bool
  priority : Int
  block : Bool
  fid : Nat
  target_type : TargetType
  trigger : RuleNode
  actions : List RuleAction

/-! ## The rule engine (src/core/engine.py). -/

/-- Abstract function provider: `execute(name, data, args, kwargs)`.
The concrete providers (local registry / gRPC / hybrid) are external I/O;
each returns `None` on failure, which the model expresses by the function
returning `Val.none` there. -/
structure FunctionProvider where
  execute : String → Val → List Val → List (String × Val) → Val

/-- Abstract model of Python's `re` module: `compile` returns the search
function of the compiled pattern, or `Option.none` when `re.compile`
raises `re.error`.  The per-instance pattern cache of the source memoizes
this deterministic function and is therefore semantically transparent. -/
structure RegexEngine where
  compile : String → Option (String → Bool)

structure RuleMatcher where
  provider : FunctionProvider
  regex : RegexEngine

/-- The function-call context dictionary threaded through evaluation. -/
abbrev Ctx := List (String × Val)

/-- Python `context[name] = result`: overwrite in place, else append. -/
def ctxInsert (ctx : Ctx) (k : String) (v : Val) : Ctx :=
  if (List.any ctx (fun kv => kv.1 = k)) then
    List.map (fun kv => if kv.1 = k then (k, v) else kv) ctx
  else ctx ++ [(k, v)]

/-- `path.split(".")` (cached via `_split_path` in the source; the cache
is semantically transparent). -/
def splitPathChars : List Char → List Char → List String
  | [], acc => [String.mk acc.reverse]
  | c :: cs, acc =>
    if c = '.' then String.mk acc.reverse :: splitPathChars cs []
    else splitPathChars cs (c :: acc)

def split_path (path : String) : List String :=
  splitPathChars path.data []

/-- Python `getattr(val, key, None)`. -/
def getattrD : Val → String → Val
  | Val.obj fields, k => (lookupA fields k).getD Val.none
  | _, _ => Val.none

/-- The attribute walk of `_get_field_value`: stop with `None` as soon as
an intermediate value is `None`. -/
def walkPath : List String → Val → Val
  | [], v => v
  | k :: ks, v =>
    let v' := getattrD v k
    if v'.isNone then Val.none else walkPath ks v'

/-- `RuleMatcher._get_field_value`: `"self"` resolves to the object
itself, otherwise walk the dotted path. -/
def get_field_value (data : Val) (field_path : String) : Val :=
  if field_path = "self" then data
  else walkPath (split_path field_path) data

/-- Field resolution for a condition: a dotted path reads the object, a
`FunctionCall` executes the provider and records the result in the
context under the function name (`_execute_function_call`). -/
def resolve_field (eng : RuleMatcher) (data : Val) (f : FieldSpec) (ctx : Ctx) : Val × Ctx :=
  match f with
  | FieldSpec.path p => (get_field_value data p, ctx)
  | FieldSpec.func name args kwargs =>
    let r := eng.provider.execute name data args kwargs
    (r, ctxInsert ctx name r)

/-- `RuleMatcher._evaluate_condition`.  A `None` field value is
unconditionally false; `contains`/`regex` work on stringified values; a
regex compile error yields false for `regex` and true for `not_regex`;
comparison or membership `TypeError` yields false. -/
def evaluate_condition (eng : RuleMatcher) (data : Val) (c : Condition) (ctx : Ctx) : Bool × Ctx :=
  let fv := resolve_field eng data c.field ctx
  if fv.1.isNone then (false, fv.2)
  else
    let str_field_value := pyStr fv.1
    let str_val := pyStr c.value
    match c.operator with
    | OperatorType.CONTAINS => (strContainsSub str_field_value str_val, fv.2)
    | OperatorType.NOT_CONTAINS => (!strContainsSub str_field_value str_val, fv.2)
    | OperatorType.REGEX =>
      match eng.regex.compile str_val with
      | some sr => (sr str_field_value, fv.2)
      | Option.none => (false, fv.2)
    | OperatorType.NOT_REGEX =>
      match eng.regex.compile str_val with
      | some sr => (!sr str_field_value, fv.2)
      | Option.none => (true, fv.2)
    | OperatorType.EQ => (pyEq fv.1 c.value, fv.2)
    | OperatorType.NEQ => (!pyEq fv.1 c.value, fv.2)
    | OperatorType.GT =>
      match pyCmp fv.1 c.value with
      | some Ordering.gt => (true, fv.2)
      | _ => (false, fv.2)
    | OperatorType.LT =>
      match pyCmp fv.1 c.value with
      | some Ordering.lt => (true, fv.2)
      | _ => (false, fv.2)
    | OperatorType.GTE =>
      match pyCmp fv.1 c.value with
      | some Ordering.gt => (true, fv.2)
      | some Ordering.eq => (true, fv.2)
      | _ => (false, fv.2)
    | OperatorType.LTE =>
      match pyCmp fv.1 c.value with
      | some Ordering.lt => (true, fv.2)
      | some Ordering.eq => (true, fv.2)
      | _ => (false, fv.2)
    | OperatorType.IN => ((pyMem fv.1 c.value).getD false, fv.2)
    | OperatorType.NOT_IN =>
      match pyMem fv.1 c.value with
      | some m => (!m, fv.2)
      | Option.none => (false, fv.2)

mutual

/-- `RuleMatcher._evaluate_node`: an empty group is false; `AND`/`OR`
short-circuit over the children in order; `NOT` evaluates only the first
child; any other connective falls through to `False`. -/
def evaluate_node (eng : RuleMatcher) (data : Val) : RuleNode → Ctx → Bool × Ctx
  | RuleNode.cond c, ctx => evaluate_condition eng data c ctx
  | RuleNode.group lg conds, ctx =>
    match conds with
    | [] => (false, ctx)
    | c0 :: rest =>
      match lg with
      | LogicType.AND => evalAndList eng data (c0 :: rest) ctx
      | LogicType.OR => evalOrList eng data (c0 :: rest) ctx
      | LogicType.NOT =>
        let r := evaluate_node eng data c0 ctx
        (!r.1, r.2)
      | _ => (false, ctx)

def evalAndList (eng : RuleMatcher) (data : Val) : List RuleNode → Ctx → Bool × Ctx
  | [], ctx => (true, ctx)
  | n :: ns, ctx =>
    let r := evaluate_node eng data n ctx
    if r.1 then evalAndList eng data ns r.2 else (false, r.2)

def evalOrList (eng : RuleMatcher) (data : Val) : List RuleNode → Ctx → Bool × Ctx
  | [], ctx => (false, ctx)
  | n :: ns, ctx =>
    let r := evaluate_node eng data n ctx
    if r.1 then (true, r.2) else evalOrList eng data ns r.2

end

/-- `RuleMatcher.match`: a disabled rule never matches; otherwise the
trigger tree is evaluated. -/
def match_rule (eng : RuleMatcher) (data : Val) (rule : ReviewRule) (ctx : Ctx) : Bool × Ctx :=
  if rule.enabled then evaluate_node eng data rule.trigger ctx else (false, ctx)

/-- `RuleMatcher.match_all`: evaluate the rules in order, collect the
matches, stop after the first matched rule with `block`; return the
matched rules and the accumulated function-call context. -/
def match_all (eng : RuleMatcher) (data : Val) : List ReviewRule → Ctx → List ReviewRule × Ctx
  | [], ctx => ([], ctx)
  | r :: rs, ctx =>
    let p := match_rule eng data r ctx
    if p.1 then
      if r.block then ([r], p.2)
      else
        let q := match_all eng data rs p.2
        (r :: q.1, q.2)
    else match_all eng data rs p.2

/-- Instrumented variant of `match_all` recording, in order, every rule
evaluated together with its match result.  Used to reason about which
rules the loop actually evaluates. -/
def match_all_trace (eng : RuleMatcher) (data : Val) : List ReviewRule → Ctx → List (ReviewRule × Bool) × Ctx
  | [], ctx => ([], ctx)
  | r :: rs, ctx =>
    let p := match_rule eng data r ctx
    if p.1 && r.block then ([(r, true)], p.2)
    else
      let q := match_all_trace eng data rs p.2
      ((r, p.1) :: q.1, q.2)

/-! ## The rule repository (src/infra/repository.py). -/

/-- A row of the `ReviewRules` table.  The scalar columns mirror the rule
fields (so the row's `enabled` column is `rule.enabled`); `parsable`
records whether `to_rule_data()` succeeds on the row's JSON blobs (a
per-row parse failure is logged and the row skipped). -/
structure DbRow where
  rule : ReviewRule
  parsable : Bool

/-- `ReviewRules.to_rule_data()`: construct the rule value, or fail. -/
def to_rule_data (row : DbRow) : Option ReviewRule :=
  if row.parsable then some row.rule else Option.none

def ruleKey (r : ReviewRule) : Nat × TargetType := (r.fid, r.target_type)

/-- Stable insertion of a rule into a priority-ascending list: the new
element goes before the first strictly-later position with the same or a
larger priority, which is exactly the stable (Timsort) placement for an
element that preceded the list. -/
def priorityInsert (r : ReviewRule) : List ReviewRule → List ReviewRule
  | [] => [r]
  | x :: xs => if r.priority ≤ x.priority then r :: x :: xs else x :: priorityInsert r xs

/-- `list.sort(key=lambda x: x.priority)`: a stable sort by priority
ascending.  Insertion sort from the right with `≤` placement is stable,
so it computes the same list as Python's stable Timsort. -/
def sort_by_priority (l : List ReviewRule) : List ReviewRule :=
  l.foldr priorityInsert []

/-- The keys of `rules` in first-occurrence order (Python dict key order
when the dict is built by appending to per-key buckets). -/
def dedupKeysAux (seen : List (Nat × TargetType)) : List (Nat × TargetType) → List (Nat × TargetType)
  | [] => []
  | k :: ks => if k ∈ seen then dedupKeysAux seen ks else k :: dedupKeysAux (k :: seen) ks

abbrev RuleIndex := List ((Nat × TargetType) × List ReviewRule)

/-- `RuleRepository._rebuild_index`: bucket the rules by
`(fid, target_type)` in list order, then sort every bucket by priority
(stable).  Each bucket in list order is exactly the sublist of rules with
that key, i.e. a `filter`. -/
def rebuild_index (rules : List ReviewRule) : RuleIndex :=
  (dedupKeysAux [] (rules.map ruleKey)).map
    (fun k => (k, sort_by_priority (rules.filter (fun r => decide (ruleKey r = k)))))

/-- The repository's in-memory cache: `self._rules` and
`self._rule_index`. -/
structure RepoState where
  rules : List ReviewRule
  index : RuleIndex

def initState : RepoState := ⟨[], []⟩

/-- `RuleRepository.get_match_rules`: concatenate the `(fid, kind)` bucket
and the `(fid, all)` bucket (specific first) and stably re-sort by
priority. -/
def get_match_rules (s : RepoState) (fid : Nat) (target_type : TargetType) : List ReviewRule :=
  let global_rules := (lookupA s.index (fid, TargetType.all)).getD []
  let specific_rules := (lookupA s.index (fid, target_type)).getD []
  sort_by_priority (specific_rules ++ global_rules)

/-- `RuleRepository._refresh_all_rules`: reload the cache from
`SELECT * WHERE enabled = true`, skipping unparsable rows, and rebuild
the index.  `db` is the table content, in the (unordered) row order the
select returns. -/
def refresh_all_rules (db : List DbRow) (_s : RepoState) : RepoState :=
  let new_rules := (db.filter (fun row => row.rule.enabled)).filterMap to_rule_data
  ⟨new_rules, rebuild_index new_rules⟩

/-- `SELECT ... WHERE id = rule_id` with `scalar_one_or_none()` (rule ids
are unique in the table). -/
def dbFind (db : List DbRow) (rule_id : Nat) : Option DbRow :=
  db.find? (fun row => decide (row.rule.id = rule_id))

/-- `RuleRepository._refresh_single_rule`: drop the cached rule with this
id, re-add it from the database row when the row exists, is enabled and
parses, then rebuild the index. -/
def refresh_single_rule (db : List DbRow) (rule_id : Nat) (s : RepoState) : RepoState :=
  let pruned := s.rules.filter (fun r => !decide (r.id = rule_id))
  let new_rules :=
    match dbFind db rule_id with
    | some row =>
      if row.rule.enabled then
        match to_rule_data row with
        | some rule => pruned ++ [rule]
        | Option.none => pruned
      else pruned
    | Option.none => pruned
  ⟨new_rules, rebuild_index new_rules⟩

/-- A rule-change notification event (`{type, rule_id}`). -/
inductive RuleEvent where
  | add (rule_id : Nat)
  | update (rule_id : Nat)
  | delete (rule_id : Nat)

/-- `RuleRepository._handle_update`: `DELETE` filters the rule list in
place (the source does not rebuild the index here); `ADD`/`UPDATE`
refresh the single rule from the database. -/
def handle_update (db : List DbRow) (s : RepoState) : RuleEvent → RepoState
  | RuleEvent.delete rule_id =>
    ⟨s.rules.filter (fun r => !decide (r.id = rule_id)), s.index⟩
  | RuleEvent.add rule_id => refresh_single_rule db rule_id s
  | RuleEvent.update rule_id => refresh_single_rule db rule_id s

/-- Repository states reachable from start-up: an initial full load,
followed by any interleaving of notification handlings (against the
database content current at that moment) and periodic full reloads. -/
inductive Reachable : RepoState → Prop where
  | load (db : List DbRow) : Reachable (refresh_all_rules db initState)
  | step_event {s : RepoState} (db : List DbRow) (ev : RuleEvent) :
      Reachable s → Reachable (handle_update db s ev)
  | step_reload {s : RepoState} (db : List DbRow) :
      Reachable s → Reachable (refresh_all_rules db s)

/-- Every cached rule — in the rule list and in every index bucket — is
enabled. -/
def repoEnabledInv (s : RepoState) : Prop :=
  s.rules.all (fun r => r.enabled) = true ∧
  s.index.all (fun kv => kv.2.all (fun r => r.enabled)) = true

/-- Lexicographic stable insertion by `(priority, id)`; used only to
state the claimed query ordering. -/
def priorityIdInsert (r : ReviewRule) : List ReviewRule → List ReviewRule
  | [] => [r]
  | x :: xs =>
    if r.priority < x.priority ∨ (r.priority = x.priority ∧ r.id ≤ x.id) then r :: x :: xs
    else x :: priorityIdInsert r xs

/-- The query result as the claim words it (spec comparison definition):
the cached rules in scope `(fid, kind)` or `(fid, all)`, sorted by
priority ascending with ties broken by rule id ascending. -/
def claimed_query (rules : List ReviewRule) (fid : Nat) (kind : TargetType) : List ReviewRule :=
  (rules.filter (fun r =>
      decide (r.fid = fid) &&
      (decide (r.target_type = kind) || decide (r.target_type = TargetType.all)))).foldr
    priorityIdInsert []

/-! ## The result dispatcher (src/infra/dispatcher.py). -/

/-- JSON values, for the serialized stream payloads. -/
inductive Json where
  | jnull
  | jbool (b : Bool)
  | jnum (n : Int)
  | jstr (s : String)
  | jarr (xs : List Json)
  | jobj (fields : List (String × Json))

/-- `MatchedRule` of the dispatcher payload. -/
structure MatchedRule where
  id : Nat
  name : String
  priority : Int
  actions : List RuleAction

def toMatchedRule (r : ReviewRule) : MatchedRule :=
  ⟨r.id, r.name, r.priority, r.actions⟩

def ruleActionJson (a : RuleAction) : Json :=
  Json.jobj [("type", Json.jstr a.type),
             ("params", Json.jobj (a.params.map (fun kv => (kv.1, Json.jstr (pyRepr kv.2)))))]

def matchedRuleJson (m : MatchedRule) : Json :=
  Json.jobj [("id", Json.jnum (Int.ofNat m.id)),
             ("name", Json.jstr m.name),
             ("priority", Json.jnum m.priority),
             ("actions", Json.jarr (m.actions.map ruleActionJson))]

/-- `ReviewResultPayload.model_dump_json()`: a JSON object whose fields
are, in declaration order, `matched_rules`, `object_type`, `target_data`
and `timestamp` (`time.time()`, modelled as an integer parameter). -/
def reviewResultPayloadJson (matched_rules : List MatchedRule) (object_type : String)
    (target_data : Json) (timestamp : Int) : Json :=
  Json.jobj [("matched_rules", Json.jarr (matched_rules.map matchedRuleJson)),
             ("object_type", Json.jstr object_type),
             ("target_data", target_data),
             ("timestamp", Json.jnum timestamp)]

/-- `ReviewResultDispatcher.dispatch(rules, object_type, target_data)`:
the list of entries appended to the action stream — empty for an empty
rule list, otherwise exactly one entry whose single field is `data`.
(A broker error during `xadd` is logged and swallowed.) -/
def dispatch (rules : List ReviewRule) (object_type : String) (target_data : Json)
    (timestamp : Int) : List (List (String × Json)) :=
  if rules.isEmpty then []
  else
    [[("data", reviewResultPayloadJson (rules.map toMatchedRule) object_type target_data timestamp)]]

/-- Top-level field names of a serialized payload object. -/
def payloadFieldNames : Json → List String
  | Json.jobj fields => fields.map (fun kv => kv.1)
  | _ => []

/-! ## The stream worker (src/worker/consumer.py). -/

/-- Number of parameters `ReviewResultDispatcher.dispatch` accepts after
`self`: `(rules, object_type, target_data)`. -/
def dispatch_param_count : Nat := 3

/-- Number of arguments `ReviewWorker._process_message` passes after
`self` at consumer.py line 186:
`(matched_rules, self._fid, object_type, obj_dict, context)`. -/
def worker_dispatch_arg_count : Nat := 5

/-- A Python positional call raises `TypeError` before the callee body
runs when the argument count differs from the parameter count. -/
def dispatch_call_raises : Bool :=
  decide (worker_dispatch_arg_count ≠ dispatch_param_count)

/-- Observable outcome of one `_process_message` run: how many entries
the worker appended to the action stream, whether the message was acked,
and whether an exception escaped to the caller. -/
structure ProcessOutcome where
  dispatched_entries : Nat
  acked : Bool
  propagated : Bool
deriving DecidableEq

/-- The dispatch-and-ack tail of `ReviewWorker._process_message`
(consumer.py lines 183-195), for a message that deserialized and matched
without error: if any rule matched, call the dispatcher (with the
call-site argument count above) and then ack; the outer handler catches
any exception and acks only when stream recovery is disabled. -/
def process_dispatch_and_ack (matched_rules : List ReviewRule)
    (enable_stream_recovery : Bool) : ProcessOutcome :=
  if matched_rules.isEmpty then ⟨0, true, false⟩
  else if dispatch_call_raises then ⟨0, !enable_stream_recovery, false⟩
  else ⟨1, true, false⟩

/-! ## The recovery loop cursor (src/worker/consumer.py lines 205-244). -/

/-- Summary of one recovery-loop iteration: the `XAUTOCLAIM` round trip
(and inline processing of the claimed entries, which swallows its own
errors) either succeeds with the response's next-id, or raises. -/
inductive AutoclaimOutcome where
  | ok (next_id : String)
  | err

/-- Cursor update of `_recovery_loop`: a successful iteration stores the
response's next-id (`last_id = messages[0]`); an exception resets the
cursor to `"0-0"`. -/
def recovery_step (_last_id : String) : AutoclaimOutcome → String
  | AutoclaimOutcome.ok next_id => next_id
  | AutoclaimOutcome.err => "0-0"

/-- The successive `start_id` arguments the loop passes to `XAUTOCLAIM`,
starting from cursor `last_id`, given the outcomes of the successive
iterations; the final element is the cursor the next call would use. -/
def recovery_start_ids (last_id : String) : List AutoclaimOutcome → List String
  | [] => [last_id]
  | o :: os => last_id :: recovery_start_ids (recovery_step last_id o) os

/-! ## Concrete instances used by witnesses and counterexamples. -/

/-- A provider with no registered functions: every call returns `None`
(the local provider's behavior on a registry miss). -/
def provider0 : FunctionProvider := ⟨fun _ _ _ _ => Val.none⟩

/-- Concrete model of `re.compile` restricted to the patterns used in
the concrete instances: the pattern `[` raises `re.error` (as in Python),
and any other pattern used here is a literal, compiling to a substring
search. -/
def regex0 : RegexEngine :=
  ⟨fun p => if p = "[" then Option.none else some (fun s => strContainsSub s p)⟩

def eng0 : RuleMatcher := ⟨provider0, regex0⟩

def trigger0 : RuleNode := RuleNode.group LogicType.AND []

/-- A concrete enabled blocking rule (shaped like the fixture rule of
the repository's test-suite). -/
def rule0 : ReviewRule :=
  ⟨101, "Test", true, 1, true, 1, TargetType.thread, trigger0, [⟨"delete", []⟩]⟩

def row0 : DbRow := ⟨rule0, true⟩

def state0 : RepoState := refresh_all_rules [row0] initState

/-- An object with a single string attribute `x`. -/
def dataX : Val := Val.obj [("x", Val.str "a")]

/-- A condition over a missing attribute, with a negative operator. -/
def condNull : Condition := ⟨FieldSpec.path "x", OperatorType.NOT_IN, Val.list []⟩

/-- A condition that matches `dataX`: its `x` attribute contains `a`. -/
def condContains : Condition := ⟨FieldSpec.path "x", OperatorType.CONTAINS, Val.str "a"⟩

def triggerMatch : RuleNode := RuleNode.cond condContains

/-- A matching rule with `block = true`. -/
def ruleBlock : ReviewRule := ⟨1, "A", true, 1, true, 1, TargetType.thread, triggerMatch, []⟩

/-- A matching rule with `block = false`, placed after `ruleBlock`. -/
def ruleAfter : ReviewRule := ⟨2, "B", true, 2, false, 1, TargetType.thread, triggerMatch, []⟩

/-- Two enabled rules with the same scope and the same priority whose ids
are out of order relative to the database row order. -/
def ruleTieA : ReviewRule := ⟨1, "tieA", true, 5, false, 1, TargetType.thread, trigger0, []⟩

def ruleTieB : ReviewRule := ⟨2, "tieB", true, 5, false, 1, TargetType.thread, trigger0, []⟩

def cexDb : List DbRow := [⟨ruleTieB, true⟩, ⟨ruleTieA, true⟩]

def cexState : RepoState := refresh_all_rules cexDb initState

/-! ## Helper lemmas. -/

theorem filter_idem {α : Type} (p : α → Bool) (l : List α) :
    (l.filter p).filter p = l.filter p := by
  induction l with
  | nil => rfl
  | cons a l ih => by_cases h : p a <;> simp [List.filter_cons, h, ih]

theorem all_priorityInsert (p : ReviewRule → Bool) (r : ReviewRule) (l : List ReviewRule) :
    (priorityInsert r l).all p = (p r && l.all p) := by
  induction l with
  | nil => simp [priorityInsert]
  | cons x xs ih =>
    by_cases h : r.priority ≤ x.priority
    · simp [priorityInsert, h, List.all_cons]
    · simp [priorityInsert, h, List.all_cons, ih]
      rw [Bool.and_left_comm]

theorem all_sort_by_priority (p : ReviewRule → Bool) (l : List ReviewRule) :
    (sort_by_priority l).all p = l.all p := by
  induction l with
  | nil => rfl
  | cons a l ih =>
    simp only [sort_by_priority, List.foldr_cons] at *
    rw [all_priorityInsert, ih, List.all_cons]

theorem all_of_filter {α : Type} (p q : α → Bool) (l : List α) (h : l.all p = true) :
    (l.filter q).all p = true := by
  rw [List.all_eq_true] at h ⊢
  intro a ha
  exact h a (List.mem_filter.mp ha).1

theorem lookupA_mem {α β : Type} [DecidableEq α] {l : List (α × β)} {k : α} {v : β}
    (h : lookupA l k = some v) : (k, v) ∈ l := by
  induction l with
  | nil => exact absurd h (by simp [lookupA])
  | cons kv rest ih =>
    by_cases hk : kv.1 = k
    · simp only [lookupA, if_pos hk] at h
      injection h with h
      have : (k, v) = kv := by
        rw [← hk, ← h]
      rw [this]
      exact List.mem_cons_self _ _
    · simp only [lookupA, if_neg hk] at h
      exact List.mem_cons_of_mem _ (ih h)

theorem rebuild_index_enabled (rules : List ReviewRule)
    (h : rules.all (fun r => r.enabled) = true) :
    (rebuild_index rules).all (fun kv => kv.2.all (fun r => r.enabled)) = true := by
  unfold rebuild_index
  rw [List.all_eq_true]
  intro kv hkv
  rcases List.mem_map.mp hkv with ⟨k, hk, hfk⟩
  rw [← hfk]
  simp only
  rw [all_sort_by_priority]
  exact all_of_filter _ _ _ h

theorem refresh_all_rules_enabled (db : List DbRow) (s : RepoState) :
    (refresh_all_rules db s).rules.all (fun r => r.enabled) = true := by
  unfold refresh_all_rules
  simp only
  rw [List.all_eq_true]
  intro r hr
  rcases List.mem_filterMap.mp hr with ⟨row, hrow, hparse⟩
  have hen := (List.mem_filter.mp hrow).2
  unfold to_rule_data at hparse
  by_cases hp : row.parsable
  · rw [if_pos hp] at hparse
    injection hparse with hparse
    rw [← hparse]
    exact hen
  · rw [if_neg hp] at hparse
    exact absurd hparse (by simp)

theorem refresh_single_rule_enabled (db : List DbRow) (rule_id : Nat) (s : RepoState)
    (h : s.rules.all (fun r => r.enabled) = true) :
    (refresh_single_rule db rule_id s).rules.all (fun r => r.enabled) = true := by
  unfold refresh_single_rule
  simp only
  have hpr : (s.rules.filter (fun r => !decide (r.id = rule_id))).all (fun r => r.enabled) = true :=
    all_of_filter _ _ _ h
  cases hfind : dbFind db rule_id with
  | none => exact hpr
  | some row =>
    by_cases hen : row.rule.enabled
    · cases hparse : to_rule_data row with
      | none => simp only [hen, if_true, hparse]; exact hpr
      | some rule =>
        have hrule : rule = row.rule := by
          unfold to_rule_data at hparse
          by_cases hp : row.parsable
          · rw [if_pos hp] at hparse
            injection hparse with hparse
            exact hparse.symm
          · rw [if_neg hp] at hparse
            exact absurd hparse (by simp)
        simp only [hen, if_true, hparse, List.all_append, hpr, Bool.true_and, List.all_cons,
          List.all_nil, Bool.and_true, hrule]
    · simp only [hen, if_false, Bool.false_eq_true]
      exact hpr

theorem get_match_rules_enabled (s : RepoState) (h : repoEnabledInv s)
    (fid : Nat) (kind : TargetType) :
    (get_match_rules s fid kind).all (fun r => r.enabled) = true := by
  unfold get_match_rules
  simp only
  rw [all_sort_by_priority, List.all_append]
  have hbucket : ∀ k : Nat × TargetType,
      ((lookupA s.index k).getD []).all (fun r => r.enabled) = true := by
    intro k
    cases hl : lookupA s.index k with
    | none => rfl
    | some bucket =>
      have hmem := lookupA_mem hl
      have h2 := h.2
      rw [List.all_eq_true] at h2
      exact h2 (k, bucket) hmem
  rw [hbucket, hbucket]
  rfl

/-! ## Claim theorems. -/

/-- C1: the dispatcher's actual payload.  The claim states the action
stream entry's `data` JSON carries `fid`, `matched_rule_ids`,
`object_type`, `object_data`, `function_call_results` and `timestamp`.
The implemented `dispatch` appends exactly one single-field `data` entry,
but its payload fields are `matched_rules`, `object_type`, `target_data`
and `timestamp`; none of `fid`, `matched_rule_ids`, `object_data` or
`function_call_results` is present (evaluated here at the concrete rule
list `[rule0]`). -/
theorem dispatch_payload_lacks_spec_fields :
    dispatch [rule0] "thread" (Json.jobj []) 123 =
      [[("data", reviewResultPayloadJson [toMatchedRule rule0] "thread" (Json.jobj []) 123)]] ∧
    payloadFieldNames (reviewResultPayloadJson [toMatchedRule rule0] "thread" (Json.jobj []) 123) =
      ["matched_rules", "object_type", "target_data", "timestamp"] ∧
    "fid" ∉ payloadFieldNames (reviewResultPayloadJson [toMatchedRule rule0] "thread" (Json.jobj []) 123) ∧
    "matched_rule_ids" ∉ payloadFieldNames (reviewResultPayloadJson [toMatchedRule rule0] "thread" (Json.jobj []) 123) ∧
    "object_data" ∉ payloadFieldNames (reviewResultPayloadJson [toMatchedRule rule0] "thread" (Json.jobj []) 123) ∧
    "function_call_results" ∉ payloadFieldNames (reviewResultPayloadJson [toMatchedRule rule0] "thread" (Json.jobj []) 123) := by
  refine ⟨rfl, rfl, ?_, ?_, ?_, ?_⟩ <;> decide

/-- C2: the worker's dispatch call site passes five arguments
(`matched_rules`, `fid`, `object_type`, `obj_dict`, `context`) while
`ReviewResultDispatcher.dispatch` accepts three (`rules`, `object_type`,
`target_data`); hence for every processed message with a non-empty
matched-rule list the call raises, no entry is appended to the action
stream, the outer handler swallows the error, and the message is acked
exactly when stream recovery is disabled. -/
theorem worker_dispatch_arity_mismatch (matched_rules : List ReviewRule)
    (enable_stream_recovery : Bool) (h : matched_rules ≠ []) :
    worker_dispatch_arg_count ≠ dispatch_param_count ∧
    dispatch_call_raises = true ∧
    process_dispatch_and_ack matched_rules enable_stream_recovery =
      ⟨0, !enable_stream_recovery, false⟩ := by
  refine ⟨by decide, by decide, ?_⟩
  cases matched_rules with
  | nil => exact absurd rfl h
  | cons r rs =>
    simp [process_dispatch_and_ack, dispatch_call_raises, worker_dispatch_arg_count,
      dispatch_param_count]

theorem worker_dispatch_arity_mismatch_witness :
    process_dispatch_and_ack [rule0] true = ⟨0, false, false⟩ ∧
    process_dispatch_and_ack [rule0] false = ⟨0, true, false⟩ :=
  ⟨(worker_dispatch_arity_mismatch [rule0] true (List.cons_ne_nil _ _)).2.2,
   (worker_dispatch_arity_mismatch [rule0] false (List.cons_ne_nil _ _)).2.2⟩

/-- C5: a condition whose field resolves to `None` — a missing or null
nested path, or a function call returning `None` — evaluates to false for
every operator, including `not_contains`, `not_regex` and `not_in`. -/
theorem null_field_condition_false (eng : RuleMatcher) (data : Val) (c : Condition) (ctx : Ctx)
    (h : (resolve_field eng data c.field ctx).1 = Val.none) :
    evaluate_condition eng data c ctx = (false, (resolve_field eng data c.field ctx).2) := by
  simp only [evaluate_condition, h]
  rfl

theorem null_field_condition_false_witness :
    evaluate_condition eng0 (Val.obj []) condNull [] = (false, []) :=
  null_field_condition_false eng0 (Val.obj []) condNull [] rfl

/-- C6 counterexample: the claim as stated quantifies over every
condition with an uncompilable pattern, but for a `not_regex` condition
whose field resolves to null the evaluation returns false, not true: the
null check precedes the operator dispatch. -/
theorem not_regex_bad_pattern_null_field_counterexample :
    regex0.compile (pyStr (Val.str "[")) = Option.none ∧
    evaluate_condition eng0 (Val.obj [])
      ⟨FieldSpec.path "x", OperatorType.NOT_REGEX, Val.str "["⟩ [] = (false, []) :=
  ⟨rfl, rfl⟩

/-- C6 (amended): for every condition whose field resolves to a non-null
value and whose stringified `value` fails to compile as a regular
expression, evaluation never raises: the `regex` operator yields false
and the `not_regex` operator yields true. -/
theorem bad_pattern_condition_fail_safe (eng : RuleMatcher) (data : Val) (c : Condition) (ctx : Ctx)
    (hfv : (resolve_field eng data c.field ctx).1.isNone = false)
    (hcomp : eng.regex.compile (pyStr c.value) = Option.none) :
    (c.operator = OperatorType.REGEX → (evaluate_condition eng data c ctx).1 = false) ∧
    (c.operator = OperatorType.NOT_REGEX → (evaluate_condition eng data c ctx).1 = true) := by
  constructor <;> intro hop <;>
    simp only [evaluate_condition, hfv, hop, hcomp, Bool.false_eq_true, if_false]

theorem bad_pattern_condition_fail_safe_witness :
    (evaluate_condition eng0 dataX ⟨FieldSpec.path "x", OperatorType.REGEX, Val.str "["⟩ []).1 = false ∧
    (evaluate_condition eng0 dataX ⟨FieldSpec.path "x", OperatorType.NOT_REGEX, Val.str "["⟩ []).1 = true :=
  ⟨(bad_pattern_condition_fail_safe eng0 dataX
      ⟨FieldSpec.path "x", OperatorType.REGEX, Val.str "["⟩ [] rfl rfl).1 rfl,
   (bad_pattern_condition_fail_safe eng0 dataX
      ⟨FieldSpec.path "x", OperatorType.NOT_REGEX, Val.str "["⟩ [] rfl rfl).2 rfl⟩

/-- C7: in every repository state reachable by an initial load followed
by any sequence of ADD/UPDATE/DELETE notification handlings and full
reloads, the cache (rule list and every index bucket) contains only
enabled rules, so the query API never returns a disabled rule. -/
theorem reachable_only_enabled (s : RepoState) (h : Reachable s) :
    repoEnabledInv s ∧
    ∀ (fid : Nat) (kind : TargetType),
      (get_match_rules s fid kind).all (fun r => r.enabled) = true := by
  have hinv : repoEnabledInv s := by
    induction h with
    | load db =>
      exact ⟨refresh_all_rules_enabled db initState,
        rebuild_index_enabled _ (refresh_all_rules_enabled db initState)⟩
    | @step_event s1 db ev hs ih =>
      cases ev with
      | delete rule_id => exact ⟨all_of_filter _ _ _ ih.1, ih.2⟩
      | add rule_id =>
        exact ⟨refresh_single_rule_enabled db rule_id _ ih.1,
          rebuild_index_enabled _ (refresh_single_rule_enabled db rule_id _ ih.1)⟩
      | update rule_id =>
        exact ⟨refresh_single_rule_enabled db rule_id _ ih.1,
          rebuild_index_enabled _ (refresh_single_rule_enabled db rule_id _ ih.1)⟩
    | @step_reload s1 db hs ih =>
      exact ⟨refresh_all_rules_enabled db s1,
        rebuild_index_enabled _ (refresh_all_rules_enabled db s1)⟩
  exact ⟨hinv, fun fid kind => get_match_rules_enabled s hinv fid kind⟩

theorem reachable_only_enabled_witness :
    state0.rules.all (fun r => r.enabled) = true ∧
    (get_match_rules state0 1 TargetType.thread).all (fun r => r.enabled) = true :=
  ⟨(reachable_only_enabled state0 (Reachable.load [row0])).1.1,
   (reachable_only_enabled state0 (Reachable.load [row0])).2 1 TargetType.thread⟩

/-- C8: handling the same ADD event twice in succession — same rule id
against the same database content — leaves the repository cache (rule
list and scope index) identical to handling it once. -/
theorem refresh_single_rule_idempotent (db : List DbRow) (rule_id : Nat) (s : RepoState) :
    handle_update db (handle_update db s (RuleEvent.add rule_id)) (RuleEvent.add rule_id) =
      handle_update db s (RuleEvent.add rule_id) := by
  show refresh_single_rule db rule_id (refresh_single_rule db rule_id s) =
    refresh_single_rule db rule_id s
  unfold refresh_single_rule
  simp only
  cases hfind : dbFind db rule_id with
  | none => rw [filter_idem]
  | some row =>
    have hid : row.rule.id = rule_id := by
      have hp := List.find?_some hfind
      exact of_decide_eq_true hp
    by_cases hen : row.rule.enabled
    · cases hparse : to_rule_data row with
      | none => simp only [hen, if_true, hparse, filter_idem]
      | some rule =>
        have hrule : rule = row.rule := by
          unfold to_rule_data at hparse
          by_cases hpb : row.parsable
          · rw [if_pos hpb] at hparse
            injection hparse with hparse
            exact hparse.symm
          · rw [if_neg hpb] at hparse
            exact absurd hparse (by simp)
        have hrid : (!decide (rule.id = rule_id)) = false := by
          rw [hrule, hid]
          simp
        simp only [hen, if_true, hparse, List.filter_append, filter_idem,
          List.filter_cons, hrid, List.filter_nil, List.append_nil]
        simp
    · simp only [hen, if_false, Bool.false_eq_true, filter_idem]

/-- C9: the recovery loop's `XAUTOCLAIM` cursor starts at `0-0`, becomes
the previous response's next-id after each successful iteration, and is
reset to `0-0` after an exception; in particular responses with next-ids
`1-0`, `2-0`, `3-0` produce the successive `start_id` arguments `0-0`,
`1-0`, `2-0`, `3-0`. -/
theorem recovery_cursor_spec :
    recovery_start_ids "0-0"
        [AutoclaimOutcome.ok "1-0", AutoclaimOutcome.ok "2-0", AutoclaimOutcome.ok "3-0"] =
      ["0-0", "1-0", "2-0", "3-0"] ∧
    (∀ (c n : String) (os : List AutoclaimOutcome),
        recovery_start_ids c (AutoclaimOutcome.ok n :: os) = c :: recovery_start_ids n os) ∧
    (∀ (c : String) (os : List AutoclaimOutcome),
        recovery_start_ids c (AutoclaimOutcome.err :: os) = c :: recovery_start_ids "0-0" os) := by
  refine ⟨rfl, ?_, ?_⟩ <;> intros <;> rfl

/-- C10: the engine implements only `AND`, `OR` and `NOT`: for every
object and every group with non-empty conditions whose logic is `XOR`,
`XNOR`, `NAND` or `NOR`, node evaluation falls through to false without
evaluating any child (the context is returned unchanged). -/
theorem unsupported_logic_false (eng : RuleMatcher) (data : Val) (lg : LogicType)
    (conds : List RuleNode) (ctx : Ctx) (hne : conds ≠ [])
    (hlg : lg = LogicType.XOR ∨ lg = LogicType.XNOR ∨ lg = LogicType.NAND ∨ lg = LogicType.NOR) :
    evaluate_node eng data (RuleNode.group lg conds) ctx = (false, ctx) := by
  cases conds with
  | nil => exact absurd rfl hne
  | cons c0 rest =>
    rcases hlg with h | h | h | h <;> subst h <;> simp [evaluate_node]

theorem unsupported_logic_false_witness :
    evaluate_node eng0 (Val.obj []) (RuleNode.group LogicType.XOR [trigger0]) [] = (false, []) :=
  unsupported_logic_false eng0 (Val.obj []) LogicType.XOR [trigger0] []
    (List.cons_ne_nil _ _) (Or.inl rfl)

theorem match_all_cons (eng : RuleMatcher) (data : Val) (r : ReviewRule) (rs : List ReviewRule)
    (ctx : Ctx) :
    match_all eng data (r :: rs) ctx =
      if (match_rule eng data r ctx).1 then
        (if r.block then ([r], (match_rule eng data r ctx).2)
         else (r :: (match_all eng data rs (match_rule eng data r ctx).2).1,
               (match_all eng data rs (match_rule eng data r ctx).2).2))
      else match_all eng data rs (match_rule eng data r ctx).2 := rfl

theorem match_all_trace_cons (eng : RuleMatcher) (data : Val) (r : ReviewRule)
    (rs : List ReviewRule) (ctx : Ctx) :
    match_all_trace eng data (r :: rs) ctx =
      if (match_rule eng data r ctx).1 && r.block then
        ([(r, true)], (match_rule eng data r ctx).2)
      else ((r, (match_rule eng data r ctx).1) ::
              (match_all_trace eng data rs (match_rule eng data r ctx).2).1,
            (match_all_trace eng data rs (match_rule eng data r ctx).2).2) := rfl

/-- C4: `match_all` iterates the rules in the given order (the evaluated
rules form a prefix of the input), returns exactly the rules that matched
among the evaluated ones (in order) together with the accumulated
function-call context, evaluates every rule unless a matched blocking
rule is hit, and stops immediately after the first matched rule with
`block = true` (nothing is evaluated after it). -/
theorem match_all_block_halt (eng : RuleMatcher) (data : Val) (rules : List ReviewRule)
    (ctx : Ctx) :
    match_all eng data rules ctx =
      (((match_all_trace eng data rules ctx).1.filter (fun p => p.2)).map (fun p => p.1),
        (match_all_trace eng data rules ctx).2) ∧
    (∃ rest, (match_all_trace eng data rules ctx).1.map (fun p => p.1) ++ rest = rules) ∧
    ((match_all_trace eng data rules ctx).1.map (fun p => p.1) = rules ∨
      ∃ p, p ∈ (match_all_trace eng data rules ctx).1 ∧ p.2 = true ∧ p.1.block = true) ∧
    (∀ (pre : List (ReviewRule × Bool)) (p : ReviewRule × Bool) (post : List (ReviewRule × Bool)),
      (match_all_trace eng data rules ctx).1 = pre ++ p :: post →
      p.2 = true → p.1.block = true → post = []) := by
  induction rules generalizing ctx with
  | nil =>
    refine ⟨rfl, ⟨[], rfl⟩, Or.inl rfl, ?_⟩
    intro pre p post hdec _ _
    have : ([] : List (ReviewRule × Bool)) ≠ pre ++ p :: post := by
      cases pre <;> simp
    exact absurd hdec this
  | cons r rs ih =>
    rcases ih (match_rule eng data r ctx).2 with ⟨ih1, ⟨rest, ih2⟩, ih3, ih4⟩
    cases hb : (match_rule eng data r ctx).1 with
    | false =>
      rw [match_all_cons, match_all_trace_cons, hb]
      simp only [Bool.false_and, Bool.false_eq_true, if_false]
      refine ⟨?_, ⟨rest, ?_⟩, ?_, ?_⟩
      · simp only [List.filter_cons, Bool.false_eq_true, if_false]
        exact ih1
      · simp only [List.map_cons]
        rw [List.cons_append, ih2]
      · rcases ih3 with h3 | ⟨p, hp, hp2, hpb⟩
        · left
          simp only [List.map_cons]
          rw [h3]
        · right
          exact ⟨p, List.mem_cons_of_mem _ hp, hp2, hpb⟩
      · intro pre p post hdec hp2 hpb
        cases pre with
        | nil =>
          simp only [List.nil_append, List.cons.injEq] at hdec
          rw [← hdec.1] at hp2
          exact absurd hp2 (by simp)
        | cons q pre2 =>
          simp only [List.cons_append, List.cons.injEq] at hdec
          exact ih4 pre2 p post hdec.2 hp2 hpb
    | true =>
      cases hbl : r.block with
      | false =>
        rw [match_all_cons, match_all_trace_cons, hb, hbl]
        simp only [Bool.true_and, Bool.false_eq_true, if_false, if_true]
        refine ⟨?_, ⟨rest, ?_⟩, ?_, ?_⟩
        · simp only [List.filter_cons, if_true, List.map_cons]
          rw [ih1]
        · simp only [List.map_cons]
          rw [List.cons_append, ih2]
        · rcases ih3 with h3 | ⟨p, hp, hp2, hpb⟩
          · left
            simp only [List.map_cons]
            rw [h3]
          · right
            exact ⟨p, List.mem_cons_of_mem _ hp, hp2, hpb⟩
        · intro pre p post hdec hp2 hpb
          cases pre with
          | nil =>
            simp only [List.nil_append, List.cons.injEq] at hdec
            rw [← hdec.1] at hpb
            simp only at hpb
            rw [hbl] at hpb
            exact absurd hpb (by simp)
          | cons q pre2 =>
            simp only [List.cons_append, List.cons.injEq] at hdec
            exact ih4 pre2 p post hdec.2 hp2 hpb
      | true =>
        rw [match_all_cons, match_all_trace_cons, hb, hbl]
        simp only [Bool.true_and, if_true]
        refine ⟨rfl, ⟨rs, rfl⟩, ?_, ?_⟩
        · right
          exact ⟨(r, true), List.mem_singleton.mpr rfl, rfl, hbl⟩
        · intro pre p post hdec _ _
          cases pre with
          | nil =>
            simp only [List.nil_append, List.cons.injEq] at hdec
            exact hdec.2.symm
          | cons q pre2 =>
            simp only [List.cons_append, List.cons.injEq] at hdec
            have := hdec.2
            exact absurd this.symm (by cases pre2 <;> simp)

theorem match_all_block_halt_witness :
    match_all eng0 dataX [ruleBlock, ruleAfter] [] = ([ruleBlock], []) := by
  have h := (match_all_block_halt eng0 dataX [ruleBlock, ruleAfter] []).1
  exact h.trans rfl

theorem priorityInsert_perm (r : ReviewRule) (l : List ReviewRule) :
    (priorityInsert r l).Perm (r :: l) := by
  induction l with
  | nil => exact List.Perm.refl _
  | cons x xs ih =>
    by_cases hp : r.priority ≤ x.priority
    · rw [priorityInsert, if_pos hp]
    · rw [priorityInsert, if_neg hp]
      exact (List.Perm.cons x ih).trans (List.Perm.swap r x xs)

theorem sort_by_priority_perm (l : List ReviewRule) : (sort_by_priority l).Perm l := by
  induction l with
  | nil => exact List.Perm.refl _
  | cons a l ih =>
    have h : sort_by_priority (a :: l) = priorityInsert a (sort_by_priority l) := rfl
    rw [h]
    exact (priorityInsert_perm a _).trans (List.Perm.cons a ih)

theorem mem_priorityInsert {y r : ReviewRule} {l : List ReviewRule} :
    y ∈ priorityInsert r l ↔ y = r ∨ y ∈ l := by
  rw [(priorityInsert_perm r l).mem_iff]
  exact List.mem_cons

theorem pairwise_priorityInsert (r : ReviewRule) (l : List ReviewRule)
    (h : List.Pairwise (fun a b => a.priority ≤ b.priority) l) :
    List.Pairwise (fun a b => a.priority ≤ b.priority) (priorityInsert r l) := by
  induction l with
  | nil => simp [priorityInsert]
  | cons x xs ih =>
    rcases List.pairwise_cons.mp h with ⟨hx, hxs⟩
    by_cases hp : r.priority ≤ x.priority
    · rw [priorityInsert, if_pos hp]
      refine List.pairwise_cons.mpr ⟨?_, h⟩
      intro b hb
      rcases List.mem_cons.mp hb with hbx | hb
      · rw [hbx]
        exact hp
      · exact le_trans hp (hx b hb)
    · rw [priorityInsert, if_neg hp]
      refine List.pairwise_cons.mpr ⟨?_, ih hxs⟩
      intro b hb
      rcases mem_priorityInsert.mp hb with hbr | hb
      · rw [hbr]
        exact le_of_not_le hp
      · exact hx b hb

theorem sort_by_priority_pairwise (l : List ReviewRule) :
    List.Pairwise (fun a b => a.priority ≤ b.priority) (sort_by_priority l) := by
  induction l with
  | nil => exact List.Pairwise.nil
  | cons a l ih => exact pairwise_priorityInsert a _ ih

theorem lookupA_map_self {K V : Type} [DecidableEq K] (ks : List K) (f : K → V) (k : K) :
    lookupA (ks.map (fun x => (x, f x))) k = if k ∈ ks then some (f k) else Option.none := by
  induction ks with
  | nil => rfl
  | cons a ks ih =>
    by_cases hk : a = k
    · subst hk
      simp [lookupA]
    · simp only [List.map_cons, lookupA, hk, if_false, ih, List.mem_cons]
      by_cases hmem : k ∈ ks
      · rw [if_pos hmem, if_pos (Or.inr hmem)]
      · rw [if_neg hmem, if_neg ?_]
        intro hor
        rcases hor with hka | hks
        · exact hk hka.symm
        · exact hmem hks

theorem mem_dedupKeysAux (k : Nat × TargetType) (seen l : List (Nat × TargetType)) :
    k ∈ dedupKeysAux seen l ↔ (k ∈ l ∧ k ∉ seen) := by
  induction l generalizing seen with
  | nil => simp [dedupKeysAux]
  | cons a l ih =>
    by_cases ha : a ∈ seen
    · rw [dedupKeysAux, if_pos ha, ih]
      constructor
      · rintro ⟨hl, hs⟩
        exact ⟨List.mem_cons_of_mem _ hl, hs⟩
      · rintro ⟨hl, hs⟩
        rcases List.mem_cons.mp hl with hka | hl
        · exact absurd (hka ▸ ha) hs
        · exact ⟨hl, hs⟩
    · rw [dedupKeysAux, if_neg ha]
      by_cases hka : k = a
      · subst hka
        simp [ha]
      · rw [List.mem_cons, ih]
        constructor
        · rintro (hka2 | ⟨hl, hs⟩)
          · exact absurd hka2 hka
          · refine ⟨List.mem_cons_of_mem _ hl, ?_⟩
            intro hseen
            exact hs (List.mem_cons_of_mem _ hseen)
        · rintro ⟨hl, hs⟩
          rcases List.mem_cons.mp hl with hka2 | hl
          · exact absurd hka2 hka
          · refine Or.inr ⟨hl, ?_⟩
            intro hmem
            rcases List.mem_cons.mp hmem with hka2 | hseen
            · exact hka hka2
            · exact hs hseen

theorem filter_eq_nil_of_key_not_mem (rules : List ReviewRule) (k : Nat × TargetType)
    (h : k ∉ rules.map ruleKey) :
    rules.filter (fun r => decide (ruleKey r = k)) = [] := by
  induction rules with
  | nil => rfl
  | cons r rs ih =>
    simp only [List.map_cons, List.mem_cons] at h
    push_neg at h
    rw [List.filter_cons, if_neg ?_]
    · exact ih h.2
    · intro hd
      exact h.1 (of_decide_eq_true hd).symm

theorem lookup_rebuild_index (rules : List ReviewRule) (k : Nat × TargetType) :
    (lookupA (rebuild_index rules) k).getD [] =
      sort_by_priority (rules.filter (fun r => decide (ruleKey r = k))) := by
  unfold rebuild_index
  rw [lookupA_map_self]
  by_cases hk : k ∈ dedupKeysAux [] (rules.map ruleKey)
  · rw [if_pos hk]
    rfl
  · rw [if_neg hk]
    have hnotmem : k ∉ rules.map ruleKey := by
      intro hmem
      exact hk ((mem_dedupKeysAux k [] _).mpr ⟨hmem, by simp⟩)
    rw [filter_eq_nil_of_key_not_mem rules k hnotmem]
    rfl

theorem filter_append_perm_or {α : Type} (p q : α → Bool) (l : List α)
    (hdisj : ∀ a, ¬(p a = true ∧ q a = true)) :
    (l.filter p ++ l.filter q).Perm (l.filter (fun a => p a || q a)) := by
  induction l with
  | nil => exact List.Perm.refl _
  | cons a l ih =>
    by_cases hp : p a = true
    · have hq : q a = false := by
        cases hqa : q a
        · rfl
        · exact absurd ⟨hp, hqa⟩ (hdisj a)
      simp only [List.filter_cons, hp, hq, Bool.true_or, if_true, Bool.false_eq_true, if_false,
        List.cons_append]
      exact List.Perm.cons a ih
    · have hp2 : p a = false := by
        cases hpa : p a
        · rfl
        · exact absurd hpa hp
      by_cases hq : q a = true
      · simp only [List.filter_cons, hp2, hq, Bool.false_or, Bool.false_eq_true, if_false, if_true]
        exact List.perm_middle.trans (List.Perm.cons a ih)
      · have hq2 : q a = false := by
          cases hqa : q a
          · rfl
          · exact absurd hqa hq
        simp only [List.filter_cons, hp2, hq2, Bool.false_or, Bool.false_eq_true, if_false]
        exact ih

theorem claim_scope_filter_eq (rules : List ReviewRule) (fid : Nat) (kind : TargetType) :
    rules.filter (fun r =>
        decide (r.fid = fid) &&
        (decide (r.target_type = kind) || decide (r.target_type = TargetType.all))) =
      rules.filter (fun r =>
        decide (ruleKey r = (fid, kind)) || decide (ruleKey r = (fid, TargetType.all))) := by
  apply List.filter_congr
  intro r _
  by_cases h1 : r.fid = fid <;> by_cases h2 : r.target_type = kind <;>
    by_cases h3 : r.target_type = TargetType.all <;>
    simp [ruleKey, Prod.ext_iff, h1, h2, h3]

/-- C3 counterexample: a cache holding two enabled rules with equal scope
and equal priority whose database row order is id 2 before id 1.  The
implemented query keeps the cache order (ids `[2, 1]`); the claimed
ordering (priority ascending, ties by id ascending) would give `[1, 2]`.
The tie is therefore not broken by id. -/
theorem query_tie_order_counterexample :
    (get_match_rules cexState 1 TargetType.thread).map (fun r => r.id) = [2, 1] ∧
    (claimed_query cexState.rules 1 TargetType.thread).map (fun r => r.id) = [1, 2] ∧
    (get_match_rules cexState 1 TargetType.thread).map (fun r => r.id) ≠
      (claimed_query cexState.rules 1 TargetType.thread).map (fun r => r.id) := by
  refine ⟨rfl, rfl, ?_⟩
  decide

/-- C3 (amended): for every cached rule list (with its rebuilt index) and
every non-`all` kind, the query returns exactly — as a multiset — the
cached rules whose scope is `(fid, kind)` or `(fid, all)`, sorted by
priority ascending; ties are broken by position (the `(fid, kind)` bucket
before the `(fid, all)` bucket, each in cache order), not by rule id, so
the result is a deterministic function of the cached rule list. -/
theorem get_match_rules_sorted_perm (rules : List ReviewRule) (fid : Nat) (kind : TargetType)
    (h : kind ≠ TargetType.all) :
    (get_match_rules ⟨rules, rebuild_index rules⟩ fid kind).Perm
      (rules.filter (fun r =>
        decide (r.fid = fid) &&
        (decide (r.target_type = kind) || decide (r.target_type = TargetType.all)))) ∧
    List.Pairwise (fun a b => a.priority ≤ b.priority)
      (get_match_rules ⟨rules, rebuild_index rules⟩ fid kind) ∧
    get_match_rules ⟨rules, rebuild_index rules⟩ fid kind =
      sort_by_priority
        (sort_by_priority (rules.filter (fun r => decide (ruleKey r = (fid, kind)))) ++
          sort_by_priority (rules.filter (fun r => decide (ruleKey r = (fid, TargetType.all))))) := by
  have hget : get_match_rules ⟨rules, rebuild_index rules⟩ fid kind =
      sort_by_priority
        (sort_by_priority (rules.filter (fun r => decide (ruleKey r = (fid, kind)))) ++
          sort_by_priority (rules.filter (fun r => decide (ruleKey r = (fid, TargetType.all))))) := by
    unfold get_match_rules
    simp only
    rw [lookup_rebuild_index, lookup_rebuild_index]
  refine ⟨?_, ?_, hget⟩
  · rw [hget, claim_scope_filter_eq]
    have hdisj : ∀ r : ReviewRule,
        ¬(decide (ruleKey r = (fid, kind)) = true ∧
          decide (ruleKey r = (fid, TargetType.all)) = true) := by
      intro r ⟨hk, ha⟩
      have hk2 := of_decide_eq_true hk
      have ha2 := of_decide_eq_true ha
      rw [hk2] at ha2
      exact h (congrArg Prod.snd ha2)
    refine (sort_by_priority_perm _).trans ?_
    refine (List.Perm.append (sort_by_priority_perm _) (sort_by_priority_perm _)).trans ?_
    exact filter_append_perm_or _ _ rules hdisj
  · rw [hget]
    exact sort_by_priority_pairwise _

theorem get_match_rules_sorted_perm_witness :
    TargetType.thread ≠ TargetType.all ∧
    List.Pairwise (fun a b => a.priority ≤ b.priority)
      (get_match_rules ⟨cexState.rules, rebuild_index cexState.rules⟩ 1 TargetType.thread) :=
  ⟨by decide,
   (get_match_rules_sorted_perm cexState.rules 1 TargetType.thread (by decide)).2.1⟩
